import Mathlib

/-!
Verification development for the Instagram-to-YouTube upload automation
repository.  We give a shallow embedding of the catalog loader and the
upload orchestration loop (`src/processor.py`), the title and tag
derivation (`src/utils.py` and the inline title code in the loop), the
duration probe, and the YouTube upload retry logic (`src/upload.py`),
and prove theorems about them.  Effectful collaborators (file system,
download, ffprobe, the HTTP upload call) are modelled by explicit
per-candidate result records; the control flow over those results is
translated from the source.
-/

set_option maxRecDepth 8000

namespace YTAuto

/-- Python `pre in`-style check `s.startswith(pre)` on strings. -/
def strStartsWith (pre s : String) : Bool :=
  pre.data.isPrefixOf s.data

/-- A media entry inside a catalog post's `media_details` list
(the `type` and `url` fields read by the processor). -/
structure MediaItem where
  mtype : String
  url : String
deriving DecidableEq

/-- A catalog post as consumed by `process_uploads`: the `media_details`
list and the caption from `post_info`. -/
structure PostData where
  media_details : List MediaItem
  caption : String
deriving DecidableEq

/-- Outcome of the YouTube upload call for one candidate as seen by the
orchestration loop: `initialize_upload` returns a video id, raises
`QuotaExceededError`, or raises an ordinary exception. -/
inductive UploadSig where
  | ok (videoId : String)
  | quota
  | err (msg : String)
deriving DecidableEq

instance : DecidableEq (Except String Unit) := fun a b =>
  match a, b with
  | .ok (), .ok () => isTrue rfl
  | .error x, .error y =>
    if h : x = y then isTrue (by rw [h])
    else isFalse (fun hc => h (by cases hc; rfl))
  | .ok _, .error _ => isFalse (fun hc => Except.noConfusion hc)
  | .error _, .ok _ => isFalse (fun hc => Except.noConfusion hc)

/-- Results of the effectful collaborators for one candidate: file-system
checks, the download call, the ffprobe duration probe, and the upload
call.  `probeExists` and `probe` feed `get_video_duration`. -/
structure Env where
  fileExists : Bool
  fileSize : Nat
  downloadResult : Except String Unit
  probeExists : Bool
  probe : Option Int
  upload : UploadSig
deriving DecidableEq

/-- One queue entry of `new_items_list` together with its collaborator
results. -/
structure Candidate where
  insta_url : String
  post : PostData
  env : Env
deriving DecidableEq

/-- One ledger record, mirroring the dicts written into `upload_history`
by the loop. -/
structure Record where
  status : String
  reason : Option String
  youtube_video_id : Option String
  account : Option String
deriving DecidableEq

/-- Observable ledger events of a run: an assignment
`upload_history[insta_url] = record`, or a call to
`history.save_upload_history`. -/
inductive Event where
  | write (insta_url : String) (rec1 : Record)
  | save
deriving DecidableEq

/-- The mutable state of the orchestration loop, plus the chronological
account-usage list and ledger event trace. -/
structure LoopState where
  uploaded_count : Nat
  skipped_count : Nat
  video_index : Nat
  account_index : Nat
  usedAccounts : List String
  events : List Event
deriving DecidableEq

/-- The JSON-parsing and validation block at the top of each loop
iteration (`media_details` checks); returns the media url and the caption,
or the raised reason. -/
def parsePost (p : PostData) : Except String (String × String) :=
  match p.media_details with
  | [] => .error "No media_details"
  | m :: _ =>
    if m.mtype != "video" then .error "First media is not a video (carousel/image?)"
    else if m.url = "" then .error "No url in media_details[0]"
    else .ok (m.url, p.caption)

/-- `utils.get_video_duration`: returns -1 when the file is missing or
ffprobe fails (timeout, bad output, missing binary, nonzero exit),
otherwise the probed duration. -/
def get_video_duration (fileOk : Bool) (probe : Option Int) : Int :=
  if ¬ fileOk then -1
  else
    match probe with
    | some d => d
    | none => -1

/-- Classification of one loop iteration's attempt: an ordinary failure
(with its recorded reason and whether the record carries the account),
a success, or the quota signal. -/
inductive AttemptResult where
  | skip (reason : String) (withAccount : Bool)
  | success (videoId : String)
  | quota
deriving DecidableEq

/-- The body of one loop iteration up to its outcome classification,
translated branch by branch from `process_uploads`: JSON parse, remote
download / local file checks, duration gate, then the upload call. -/
def attemptOutcome (c : Candidate) : AttemptResult :=
  match parsePost c.post with
  | .error _ => .skip "JSON error" false
  | .ok (video_url, _) =>
    let fileStage : Except String Unit :=
      if strStartsWith "http://" video_url || strStartsWith "https://" video_url then
        if ¬ (c.env.fileExists ∧ c.env.fileSize ≠ 0) then
          match c.env.downloadResult with
          | .error e => .error ("Download failed: " ++ e.take 100)
          | .ok _ => .ok ()
        else .ok ()
      else
        if ¬ c.env.fileExists then .error "File missing"
        else if c.env.fileSize = 0 then .error "File empty"
        else .ok ()
    match fileStage with
    | .error reason => .skip reason false
    | .ok _ =>
      let duration := get_video_duration c.env.probeExists c.env.probe
      if duration = -1 then .skip "Duration unavailable" false
      else if duration > 60 then
        .skip ("Too long for Shorts (" ++ toString duration ++ "s)") false
      else
        match c.env.upload with
        | .ok vid => .success vid
        | .quota => .quota
        | .err e => .skip (e.take 100) true

/-- The `while` loop of `process_uploads`, recursing over the
not-yet-attempted tail of `new_items_list`.  An `Except.error` result
models the re-raised `QuotaExceededError`, carrying the state at the
raise. -/
def processGo (accounts : List String) (num_accounts target_successes : Nat) :
    List Candidate → LoopState → Except LoopState LoopState
  | [], s => .ok s
  | c :: rest, s =>
    if s.uploaded_count < target_successes then
      let acc := accounts.getD (s.account_index % num_accounts) ""
      let s0 : LoopState :=
        { s with video_index := s.video_index + 1,
                 account_index := s.account_index + 1,
                 usedAccounts := s.usedAccounts ++ [acc] }
      match attemptOutcome c with
      | .skip reason withAcc =>
        let rec1 : Record :=
          { status := "failed", reason := some reason, youtube_video_id := none,
            account := if withAcc then some acc else none }
        processGo accounts num_accounts target_successes rest
          { s0 with skipped_count := s0.skipped_count + 1,
                    events := s0.events ++ [.write c.insta_url rec1, .save] }
      | .success vid =>
        let rec1 : Record :=
          { status := "success", reason := none, youtube_video_id := some vid,
            account := some acc }
        let s1 : LoopState :=
          { s0 with uploaded_count := s0.uploaded_count + 1,
                    events := s0.events ++ [.write c.insta_url rec1, .save] }
        if s1.uploaded_count ≥ target_successes then .ok s1
        else processGo accounts num_accounts target_successes rest s1
      | .quota =>
        let rec1 : Record :=
          { status := "failed", reason := some "Quota exceeded", youtube_video_id := none,
            account := some acc }
        .error { s0 with events := s0.events ++ [.write c.insta_url rec1, .save] }
    else .ok s

/-- `process_uploads`: runs the loop from fresh counters.  The Python
function returns `(uploaded_count, skipped_count)`; here the whole final
state is returned, with `Except.error` signalling the re-raised
`QuotaExceededError`. -/
def process_uploads (account_services : List String) (num_accounts : Nat)
    (new_items_list : List Candidate) (target_successes : Nat) :
    Except LoopState LoopState :=
  processGo account_services num_accounts target_successes new_items_list
    { uploaded_count := 0, skipped_count := 0, video_index := 0,
      account_index := 0, usedAccounts := [], events := [] }

/-- The loop state carried by either outcome of a run. -/
def resState : Except LoopState LoopState → LoopState
  | .ok s => s
  | .error s => s

/-- Whether a run finished normally (no quota raise). -/
def runOk : Except LoopState LoopState → Bool
  | .ok _ => true
  | .error _ => false

/-- Number of candidates in a list whose attempt succeeds. -/
def succCount (l : List Candidate) : Nat :=
  l.countP (fun c => match attemptOutcome c with | .success _ => true | _ => false)

/-- The ledger event trace of a sequence of attempts: one write followed
immediately by one save per attempted candidate. -/
def writeSaveTrace (l : List (String × Record)) : List Event :=
  l.flatMap (fun p => [.write p.1 p.2, .save])

/-- A well-formed ledger record: success carrying a video id, or failure
carrying a reason. -/
def recOk (r : Record) : Prop :=
  (r.status = "success" ∧ r.youtube_video_id.isSome) ∨
  (r.status = "failed" ∧ r.reason.isSome)

/-- A local-path candidate whose collaborators all work and whose upload
call yields the given signature; used for concrete scenarios. -/
def mkCand (id : String) (sig : UploadSig) : Candidate :=
  { insta_url := id,
    post := { media_details := [{ mtype := "video", url := "videos/v.mp4" }],
              caption := "" },
    env := { fileExists := true, fileSize := 1, downloadResult := .ok (),
             probeExists := true, probe := some 30, upload := sig } }

/-! ### Catalog loader (`load_and_filter_data`) -/

/-- Python dict insertion: a repeated key keeps its first position and
takes the latest value. -/
def upsert (l : List (String × PostData)) (k : String) (v : PostData) :
    List (String × PostData) :=
  if l.any (fun p => p.1 = k) then
    l.map (fun p => if p.1 = k then (k, v) else p)
  else l ++ [(k, v)]

/-- `json.load` applied to the catalog file's top-level object: the raw
key/value pair sequence of the JSON text folded into a Python dict
(duplicate keys collapse, last value wins, first position kept). -/
def jsonLoadObject (raw : List (String × PostData)) : List (String × PostData) :=
  raw.foldl (fun acc p => upsert acc p.1 p.2) []

/-- The explicit dedup pass in `load_and_filter_data`, iterating over the
dict items with a `seen` set, counting duplicates. -/
def dedupeLoop : List (String × PostData) → List String →
    List (String × PostData) → Nat → List (String × PostData) × Nat
  | [], _, uniq, dups => (uniq, dups)
  | p :: rest, seen, uniq, dups =>
    if p.1 ∈ seen then dedupeLoop rest seen uniq (dups + 1)
    else dedupeLoop rest (p.1 :: seen) (uniq ++ [p]) dups

/-- The dedup pass started with an empty `seen` set and zero count. -/
def dedupe (items : List (String × PostData)) : List (String × PostData) × Nat :=
  dedupeLoop items [] [] 0

/-- Python `url in upload_history` (dict key membership). -/
def histMem (hist : List (String × Record)) (k : String) : Bool :=
  hist.any (fun p => p.1 = k)

/-- `load_and_filter_data` after the file-existence check: json.load,
dedup pass, history filter, and the `ValueError` when no new items
remain.  Returns the ordered `new_items_list` and its length. -/
def load_and_filter_data (raw : List (String × PostData))
    (hist : List (String × Record)) :
    Except String (List (String × PostData) × Nat) :=
  let insta_data := (dedupe (jsonLoadObject raw)).1
  let new_items := insta_data.filter (fun p => !histMem hist p.1)
  if new_items.isEmpty then .error "No new videos to upload! All done."
  else .ok (new_items, new_items.length)

/-! ### Tag extraction (`utils.extract_tags_from_caption`) -/

/-- Word characters of the regex `\w` (ASCII model). -/
def isWordChar (ch : Char) : Bool := ch.isAlphanum || ch = '_'

/-- Leftmost, non-overlapping matches of the regex `#\w+`: a match is a
`#` followed by a maximal non-empty run of word characters, and the scan
resumes after the match.  The fuel argument (compared against the list
length, which strictly decreases at every step) makes the scan a
structural recursion. -/
def findHashtagsGo : Nat → List Char → List (List Char)
  | 0, _ => []
  | _, [] => []
  | fuel + 1, ch :: rest =>
    if ch = '#' then
      let tok := rest.takeWhile isWordChar
      if tok.isEmpty then findHashtagsGo fuel rest
      else ('#' :: tok) :: findHashtagsGo fuel (rest.drop tok.length)
    else findHashtagsGo fuel rest

/-- The full scan of `re.findall` with enough fuel for the whole input. -/
def findHashtags (l : List Char) : List (List Char) :=
  findHashtagsGo l.length l

/-- `utils.extract_tags_from_caption`: the hashtags found in the caption,
lowercased (the source performs no deduplication). -/
def extract_tags_from_caption (caption : List Char) : List (List Char) :=
  (findHashtags caption).map (fun t => t.map Char.toLower)

/-! ### Title construction (processor lines 204-216) -/

/-- Python whitespace for `str.split()` / `str.strip()` (ASCII model). -/
def pyIsSpace (ch : Char) : Bool :=
  ch = ' ' || ch = '\t' || ch = '\n' || ch = '\r' || ch = '\x0b' || ch = '\x0c'

/-- `str.split()` with no separator: whitespace-delimited tokens with
empties dropped. -/
def pySplit : List Char → List (List Char)
  | [] => []
  | ch :: rest =>
    if pyIsSpace ch then pySplit rest
    else
      (ch :: rest.takeWhile (fun d => !pyIsSpace d)) ::
        pySplit (rest.dropWhile (fun d => !pyIsSpace d))
termination_by l => l.length
decreasing_by
  · simp
  · have h : ∀ l : List Char, (l.dropWhile (fun d => !pyIsSpace d)).length ≤ l.length := by
      intro l
      induction l with
      | nil => simp [List.dropWhile]
      | cons a l ih =>
        simp only [List.dropWhile]
        split
        · simp only [List.length_cons]
          omega
        · simp
    simp only [List.length_cons]
    have := h rest
    omega

/-- `' '.join(tokens)`. -/
def joinSpace : List (List Char) → List Char
  | [] => []
  | [t] => t
  | t :: ts => t ++ ' ' :: joinSpace ts

/-- `str.strip()`: drop leading and trailing whitespace. -/
def pyStrip (l : List Char) : List Char :=
  ((l.dropWhile pyIsSpace).reverse.dropWhile pyIsSpace).reverse

/-- One decimal digit character. -/
def digitChar (d : Nat) : Char :=
  match d with
  | 0 => '0' | 1 => '1' | 2 => '2' | 3 => '3' | 4 => '4'
  | 5 => '5' | 6 => '6' | 7 => '7' | 8 => '8' | _ => '9'

/-- Decimal digits of a natural number, as Python's f-string prints it. -/
def natDigits (n : Nat) : List Char :=
  if n < 10 then [digitChar n]
  else natDigits (n / 10) ++ [digitChar (n % 10)]
termination_by n
decreasing_by
  exact Nat.div_lt_self (by omega) (by omega)

/-- The `#Shorts`-prefix enforcement at the end of the title
construction: prepend "#Shorts " unless the title already starts with it
case-insensitively, truncating to 100 characters either way. -/
def enforceShorts (base_title : List Char) : List Char :=
  if ¬ ("#shorts".data.isPrefixOf (base_title.map Char.toLower)) then
    ("#Shorts ".data ++ base_title).take 100
  else base_title.take 100

/-- The title-construction block of `process_uploads`: newline
replacement, strip, whitespace collapse, 100-char truncation, the
fallback for empty or too-short captions, then the `#Shorts`
enforcement. -/
def buildTitle (caption : List Char) (video_index : Nat) : List Char :=
  let cleaned_desc := pyStrip (caption.map (fun ch => if ch = '\n' then ' ' else ch))
  let base0 := (joinSpace (pySplit cleaned_desc)).take 100
  let base_title :=
    if base0.isEmpty ∨ base0.length < 3 then
      "#Shorts #InstagramReel_".data ++ natDigits video_index
    else base0
  enforceShorts base_title

/-! ### Upload retry loop (`upload.initialize_upload`) -/

/-- One YouTube API response to an `insert_request.execute()` call. -/
inductive ApiResponse where
  | ok (videoId : String)
  | httpError (status : Nat) (reason : String)
  | otherError (msg : String)

/-- Result of the retry loop in `initialize_upload`. -/
inductive UpResult where
  | ok (videoId : String)
  | quotaRaised
  | raisedHttp (status : Nat)
  | raisedOther (msg : String)
  | fellThrough
deriving DecidableEq

/-- Python `needle in hay` substring test. -/
def containsSub (needle : List Char) : List Char → Bool
  | [] => needle.isEmpty
  | c :: rest => needle.isPrefixOf (c :: rest) || containsSub needle rest

/-- The `for attempt in range(max_retries)` loop of `initialize_upload`:
`i` is the attempt index, `fuel` the remaining iterations (3 - i at
entry), `delay` the current retry delay, `sleeps` the sleeps performed so
far.  Quota detection (403 with quotaExceeded in the reason), the
500/503 retry branch, and the generic-exception retry follow the source;
an empty video id raises ValueError, caught by the generic handler. -/
def uploadAttempts (responses : Nat → ApiResponse) :
    Nat → Nat → Nat → List Nat → UpResult × List Nat
  | _, 0, _, sleeps => (.fellThrough, sleeps)
  | i, fuel + 1, delay, sleeps =>
    match responses i with
    | .ok vid =>
      if vid = "" then
        if i < 2 then uploadAttempts responses (i + 1) fuel (delay * 2) (sleeps ++ [delay])
        else (.raisedOther "No video ID in response", sleeps)
      else (.ok vid, sleeps)
    | .httpError status reason =>
      if status = 403 ∧ containsSub "quotaExceeded".data reason.data then
        (.quotaRaised, sleeps)
      else if status = 500 ∨ status = 503 then
        if i < 2 then uploadAttempts responses (i + 1) fuel (delay * 2) (sleeps ++ [delay])
        else (.raisedHttp status, sleeps)
      else (.raisedHttp status, sleeps)
    | .otherError msg =>
      if i < 2 then uploadAttempts responses (i + 1) fuel (delay * 2) (sleeps ++ [delay])
      else (.raisedOther msg, sleeps)

/-- `initialize_upload` (upload.py): FileError when the video file is
missing, the `shorts` tag adjustment, then up to three upload attempts
with an initial 1-second retry delay.  Returns the loop result, the
sleeps performed, and the adjusted tag list. -/
def initialize_upload (fileOk : Bool) (tags : List String)
    (responses : Nat → ApiResponse) :
    Except String ((UpResult × List Nat) × List String) :=
  if ¬ fileOk then .error "Video file not found"
  else
    let tags1 :=
      if "shorts" ∈ tags.map (fun tg => String.mk (tg.data.map Char.toLower)) then tags
      else tags ++ ["#Shorts"]
    .ok (uploadAttempts responses 0 3 1 [], tags1)

/-- The constant 502-response sequence used as the C7 counterexample. -/
def resp502 : Nat → ApiResponse := fun _ => .httpError 502 "Bad Gateway"

/-- C1 scenario queue: attempts 1 and 3 fail with an ordinary upload
error, attempts 2 and 4 succeed, candidate 5 would succeed if reached. -/
def scenC1 : List Candidate :=
  [mkCand "u1" (.err "boom"), mkCand "u2" (.ok "v2"), mkCand "u3" (.err "boom"),
   mkCand "u4" (.ok "v4"), mkCand "u5" (.ok "v5")]

/-- C3 scenario queue: nine candidates that all succeed. -/
def scenC3 : List Candidate :=
  [mkCand "w1" (.ok "x1"), mkCand "w2" (.ok "x2"), mkCand "w3" (.ok "x3"),
   mkCand "w4" (.ok "x4"), mkCand "w5" (.ok "x5"), mkCand "w6" (.ok "x6"),
   mkCand "w7" (.ok "x7"), mkCand "w8" (.ok "x8"), mkCand "w9" (.ok "x9")]

/-! ### Unfolding lemmas for the loop -/

theorem processGo_nil (accounts : List String) (n t : Nat) (s : LoopState) :
    processGo accounts n t [] s = .ok s := rfl

theorem processGo_cons_stop (accounts : List String) (n t : Nat)
    (c : Candidate) (rest : List Candidate) (s : LoopState)
    (h : ¬ s.uploaded_count < t) :
    processGo accounts n t (c :: rest) s = .ok s := by
  simp [processGo, h]

theorem processGo_cons_skip (accounts : List String) (n t : Nat)
    (c : Candidate) (rest : List Candidate) (s : LoopState)
    (reason : String) (withAcc : Bool)
    (hlt : s.uploaded_count < t) (hAtt : attemptOutcome c = .skip reason withAcc) :
    processGo accounts n t (c :: rest) s =
      processGo accounts n t rest
        { s with skipped_count := s.skipped_count + 1,
                 video_index := s.video_index + 1,
                 account_index := s.account_index + 1,
                 usedAccounts := s.usedAccounts ++ [accounts.getD (s.account_index % n) ""],
                 events := s.events ++
                   [.write c.insta_url
                      { status := "failed", reason := some reason,
                        youtube_video_id := none,
                        account := if withAcc then
                          some (accounts.getD (s.account_index % n) "") else none },
                    .save] } := by
  simp [processGo, hAtt, hlt]

theorem processGo_cons_success (accounts : List String) (n t : Nat)
    (c : Candidate) (rest : List Candidate) (s : LoopState) (vid : String)
    (hlt : s.uploaded_count < t) (hAtt : attemptOutcome c = .success vid) :
    processGo accounts n t (c :: rest) s =
      (if s.uploaded_count + 1 ≥ t then
        Except.ok
          { s with uploaded_count := s.uploaded_count + 1,
                   video_index := s.video_index + 1,
                   account_index := s.account_index + 1,
                   usedAccounts := s.usedAccounts ++ [accounts.getD (s.account_index % n) ""],
                   events := s.events ++
                     [.write c.insta_url
                        { status := "success", reason := none,
                          youtube_video_id := some vid,
                          account := some (accounts.getD (s.account_index % n) "") },
                      .save] }
      else
        processGo accounts n t rest
          { s with uploaded_count := s.uploaded_count + 1,
                   video_index := s.video_index + 1,
                   account_index := s.account_index + 1,
                   usedAccounts := s.usedAccounts ++ [accounts.getD (s.account_index % n) ""],
                   events := s.events ++
                     [.write c.insta_url
                        { status := "success", reason := none,
                          youtube_video_id := some vid,
                          account := some (accounts.getD (s.account_index % n) "") },
                      .save] }) := by
  simp [processGo, hAtt, hlt]

theorem processGo_cons_quota (accounts : List String) (n t : Nat)
    (c : Candidate) (rest : List Candidate) (s : LoopState)
    (hlt : s.uploaded_count < t) (hAtt : attemptOutcome c = .quota) :
    processGo accounts n t (c :: rest) s =
      .error
        { s with video_index := s.video_index + 1,
                 account_index := s.account_index + 1,
                 usedAccounts := s.usedAccounts ++ [accounts.getD (s.account_index % n) ""],
                 events := s.events ++
                   [.write c.insta_url
                      { status := "failed", reason := some "Quota exceeded",
                        youtube_video_id := none,
                        account := some (accounts.getD (s.account_index % n) "") },
                    .save] } := by
  simp [processGo, hAtt, hlt]

/-! ### Induction lemmas for the loop -/

theorem processGo_stop (accounts : List String) (n t : Nat) :
    ∀ (q : List Candidate) (s s2 : LoopState),
      processGo accounts n t q s = .ok s2 → s.uploaded_count ≤ t →
      s2.uploaded_count ≤ t ∧
      (s2.uploaded_count = t ∨ s2.video_index = s.video_index + q.length) := by
  intro q
  induction q with
  | nil =>
    intro s s2 h hle
    rw [processGo_nil] at h
    cases h
    exact ⟨hle, Or.inr (by simp)⟩
  | cons c rest ih =>
    intro s s2 h hle
    by_cases hlt : s.uploaded_count < t
    · cases hAtt : attemptOutcome c with
      | skip reason withAcc =>
        rw [processGo_cons_skip accounts n t c rest s reason withAcc hlt hAtt] at h
        obtain ⟨h1, h2⟩ := ih _ _ h (by simpa using hle)
        refine ⟨h1, ?_⟩
        rcases h2 with h2 | h2
        · exact Or.inl h2
        · right
          simp only [List.length_cons] at h2 ⊢
          omega
      | success vid =>
        rw [processGo_cons_success accounts n t c rest s vid hlt hAtt] at h
        by_cases hge : s.uploaded_count + 1 ≥ t
        · rw [if_pos hge] at h
          cases h
          exact ⟨by simpa using hlt, Or.inl (by simp; omega)⟩
        · rw [if_neg hge] at h
          obtain ⟨h1, h2⟩ := ih _ _ h (by simp; omega)
          refine ⟨h1, ?_⟩
          rcases h2 with h2 | h2
          · exact Or.inl h2
          · right
            simp only [List.length_cons] at h2 ⊢
            omega
      | quota =>
        rw [processGo_cons_quota accounts n t c rest s hlt hAtt] at h
        cases h
    · rw [processGo_cons_stop accounts n t c rest s hlt] at h
      cases h
      exact ⟨hle, Or.inl (by omega)⟩

theorem processGo_counters (accounts : List String) (n t : Nat) :
    ∀ (q : List Candidate) (s : LoopState) (r : Except LoopState LoopState),
      processGo accounts n t q s = r →
      ∃ k, k ≤ q.length ∧
        (resState r).video_index = s.video_index + k ∧
        (resState r).account_index = s.account_index + k ∧
        (resState r).usedAccounts =
          s.usedAccounts ++ (List.range k).map
            (fun j => accounts.getD ((s.account_index + j) % n) "") := by
  intro q
  induction q with
  | nil =>
    intro s r h
    rw [processGo_nil] at h
    cases h
    exact ⟨0, by simp [resState]⟩
  | cons c rest ih =>
    intro s r h
    by_cases hlt : s.uploaded_count < t
    · cases hAtt : attemptOutcome c with
      | skip reason withAcc =>
        rw [processGo_cons_skip accounts n t c rest s reason withAcc hlt hAtt] at h
        obtain ⟨k, hk, h1, h2, h3⟩ := ih _ _ h
        refine ⟨k + 1, by simpa using Nat.add_le_add_right hk 1, ?_, ?_, ?_⟩
        · rw [h1]
          show s.video_index + 1 + k = s.video_index + (k + 1)
          omega
        · rw [h2]
          show s.account_index + 1 + k = s.account_index + (k + 1)
          omega
        · rw [h3]
          show (s.usedAccounts ++ [accounts.getD (s.account_index % n) ""]) ++
              (List.range k).map
                (fun j => accounts.getD ((s.account_index + 1 + j) % n) "") =
            s.usedAccounts ++ (List.range (k + 1)).map
              (fun j => accounts.getD ((s.account_index + j) % n) "")
          rw [List.range_succ_eq_map, List.map_cons, List.map_map, List.append_assoc,
            List.singleton_append]
          congr 2
          apply List.map_congr_left
          intro a _
          have hx : s.account_index + 1 + a = s.account_index + (a + 1) := by omega
          simp [Function.comp, hx, Nat.succ_eq_add_one]
      | success vid =>
        rw [processGo_cons_success accounts n t c rest s vid hlt hAtt] at h
        by_cases hge : s.uploaded_count + 1 ≥ t
        · rw [if_pos hge] at h
          cases h
          refine ⟨1, by simp, ?_, ?_, ?_⟩ <;> simp [resState, List.range_succ]
        · rw [if_neg hge] at h
          obtain ⟨k, hk, h1, h2, h3⟩ := ih _ _ h
          refine ⟨k + 1, by simpa using Nat.add_le_add_right hk 1, ?_, ?_, ?_⟩
          · rw [h1]
            show s.video_index + 1 + k = s.video_index + (k + 1)
            omega
          · rw [h2]
            show s.account_index + 1 + k = s.account_index + (k + 1)
            omega
          · rw [h3]
            show (s.usedAccounts ++ [accounts.getD (s.account_index % n) ""]) ++
                (List.range k).map
                  (fun j => accounts.getD ((s.account_index + 1 + j) % n) "") =
              s.usedAccounts ++ (List.range (k + 1)).map
                (fun j => accounts.getD ((s.account_index + j) % n) "")
            rw [List.range_succ_eq_map, List.map_cons, List.map_map, List.append_assoc,
              List.singleton_append]
            congr 2
            apply List.map_congr_left
            intro a _
            have hx : s.account_index + 1 + a = s.account_index + (a + 1) := by omega
            simp [Function.comp, hx, Nat.succ_eq_add_one]
      | quota =>
        rw [processGo_cons_quota accounts n t c rest s hlt hAtt] at h
        cases h
        refine ⟨1, by simp, ?_, ?_, ?_⟩ <;> simp [resState, List.range_succ]
    · rw [processGo_cons_stop accounts n t c rest s hlt] at h
      cases h
      exact ⟨0, by simp [resState]⟩

theorem writeSaveTrace_nil : writeSaveTrace [] = [] := rfl

theorem writeSaveTrace_cons (a : String) (b : Record) (l : List (String × Record)) :
    writeSaveTrace ((a, b) :: l) = .write a b :: .save :: writeSaveTrace l := rfl

theorem processGo_trace (accounts : List String) (n t : Nat) :
    ∀ (q : List Candidate) (s : LoopState) (r : Except LoopState LoopState),
      processGo accounts n t q s = r →
      ∃ k recs, k ≤ q.length ∧ recs.length = k ∧
        (resState r).video_index = s.video_index + k ∧
        (resState r).events =
          s.events ++ writeSaveTrace (((q.take k).map Candidate.insta_url).zip recs) ∧
        ∀ rec1 ∈ recs, recOk rec1 := by
  intro q
  induction q with
  | nil =>
    intro s r h
    rw [processGo_nil] at h
    cases h
    exact ⟨0, [], by simp [resState, writeSaveTrace_nil]⟩
  | cons c rest ih =>
    intro s r h
    by_cases hlt : s.uploaded_count < t
    · cases hAtt : attemptOutcome c with
      | skip reason withAcc =>
        rw [processGo_cons_skip accounts n t c rest s reason withAcc hlt hAtt] at h
        obtain ⟨k, recs, hk, hlen, hvi, hev, hok⟩ := ih _ _ h
        refine ⟨k + 1,
          { status := "failed", reason := some reason, youtube_video_id := none,
            account := if withAcc then
              some (accounts.getD (s.account_index % n) "") else none } :: recs,
          by simpa using Nat.add_le_add_right hk 1, by simp [hlen], ?_, ?_, ?_⟩
        · rw [hvi]
          show s.video_index + 1 + k = s.video_index + (k + 1)
          omega
        · rw [hev]
          simp [List.take_succ_cons, writeSaveTrace_cons, List.append_assoc]
        · intro r1 hr1
          rcases List.mem_cons.mp hr1 with h1 | h1
          · subst h1
            exact Or.inr ⟨rfl, rfl⟩
          · exact hok _ h1
      | success vid =>
        rw [processGo_cons_success accounts n t c rest s vid hlt hAtt] at h
        by_cases hge : s.uploaded_count + 1 ≥ t
        · rw [if_pos hge] at h
          cases h
          refine ⟨1,
            [{ status := "success", reason := none, youtube_video_id := some vid,
               account := some (accounts.getD (s.account_index % n) "") }],
            by simp, by simp, by simp [resState], ?_, ?_⟩
          · simp [resState, List.take_succ_cons, writeSaveTrace_cons, writeSaveTrace_nil]
          · intro r1 hr1
            rcases List.mem_cons.mp hr1 with h1 | h1
            · subst h1
              exact Or.inl ⟨rfl, rfl⟩
            · simp at h1
        · rw [if_neg hge] at h
          obtain ⟨k, recs, hk, hlen, hvi, hev, hok⟩ := ih _ _ h
          refine ⟨k + 1,
            { status := "success", reason := none, youtube_video_id := some vid,
              account := some (accounts.getD (s.account_index % n) "") } :: recs,
            by simpa using Nat.add_le_add_right hk 1, by simp [hlen], ?_, ?_, ?_⟩
          · rw [hvi]
            show s.video_index + 1 + k = s.video_index + (k + 1)
            omega
          · rw [hev]
            simp [List.take_succ_cons, writeSaveTrace_cons, List.append_assoc]
          · intro r1 hr1
            rcases List.mem_cons.mp hr1 with h1 | h1
            · subst h1
              exact Or.inl ⟨rfl, rfl⟩
            · exact hok _ h1
      | quota =>
        rw [processGo_cons_quota accounts n t c rest s hlt hAtt] at h
        cases h
        refine ⟨1,
          [{ status := "failed", reason := some "Quota exceeded", youtube_video_id := none,
             account := some (accounts.getD (s.account_index % n) "") }],
          by simp, by simp, by simp [resState], ?_, ?_⟩
        · simp [resState, List.take_succ_cons, writeSaveTrace_cons, writeSaveTrace_nil]
        · intro r1 hr1
          rcases List.mem_cons.mp hr1 with h1 | h1
          · subst h1
            exact Or.inr ⟨rfl, rfl⟩
          · simp at h1
    · rw [processGo_cons_stop accounts n t c rest s hlt] at h
      cases h
      exact ⟨0, [], by simp [resState, writeSaveTrace_nil]⟩

theorem succCount_nil : succCount [] = 0 := rfl

theorem succCount_cons_skip (c : Candidate) (l : List Candidate)
    (reason : String) (withAcc : Bool)
    (hAtt : attemptOutcome c = .skip reason withAcc) :
    succCount (c :: l) = succCount l := by
  simp [succCount, List.countP_cons, hAtt]

theorem succCount_cons_success (c : Candidate) (l : List Candidate) (vid : String)
    (hAtt : attemptOutcome c = .success vid) :
    succCount (c :: l) = succCount l + 1 := by
  simp [succCount, List.countP_cons, hAtt]

theorem processGo_quota_fwd (accounts : List String) (n t : Nat) (c : Candidate)
    (hq : attemptOutcome c = .quota) :
    ∀ (q1 : List Candidate) (q2 : List Candidate) (s : LoopState),
      (∀ c' ∈ q1, attemptOutcome c' ≠ .quota) →
      s.uploaded_count + succCount q1 < t →
      ∃ s2, processGo accounts n t (q1 ++ c :: q2) s = .error s2 ∧
        s2.video_index = s.video_index + q1.length + 1 ∧
        s2.uploaded_count = s.uploaded_count + succCount q1 ∧
        ∃ pre, s2.events = s.events ++ pre ++
          [.write c.insta_url
             { status := "failed", reason := some "Quota exceeded",
               youtube_video_id := none,
               account := some (accounts.getD ((s.account_index + q1.length) % n) "") },
           .save] := by
  intro q1
  induction q1 with
  | nil =>
    intro q2 s _ hcnt
    have hlt : s.uploaded_count < t := by
      simpa [succCount_nil] using hcnt
    rw [List.nil_append, processGo_cons_quota accounts n t c q2 s hlt hq]
    exact ⟨_, rfl, by simp, by simp [succCount_nil], [], by simp⟩
  | cons c1 rest1 ih =>
    intro q2 s hnq hcnt
    have hlt : s.uploaded_count < t := by omega
    cases hAtt : attemptOutcome c1 with
    | skip reason withAcc =>
      have hcnt1 : succCount (c1 :: rest1) = succCount rest1 :=
        succCount_cons_skip c1 rest1 reason withAcc hAtt
      rw [List.cons_append,
        processGo_cons_skip accounts n t c1 (rest1 ++ c :: q2) s reason withAcc hlt hAtt]
      obtain ⟨s2, hrun, hvi, hup, pre, hev⟩ :=
        ih q2
          { s with skipped_count := s.skipped_count + 1,
                   video_index := s.video_index + 1,
                   account_index := s.account_index + 1,
                   usedAccounts := s.usedAccounts ++ [accounts.getD (s.account_index % n) ""],
                   events := s.events ++
                     [.write c1.insta_url
                        { status := "failed", reason := some reason,
                          youtube_video_id := none,
                          account := if withAcc then
                            some (accounts.getD (s.account_index % n) "") else none },
                      .save] }
          (fun c' hc' => hnq c' (List.mem_cons_of_mem c1 hc'))
          (by show s.uploaded_count + succCount rest1 < t
              rw [hcnt1] at hcnt
              exact hcnt)
      refine ⟨s2, hrun, ?_, ?_, ?_⟩
      · rw [hvi]
        show s.video_index + 1 + rest1.length + 1 = s.video_index + (rest1.length + 1) + 1
        omega
      · rw [hup, hcnt1]
      · refine ⟨[.write c1.insta_url
            { status := "failed", reason := some reason, youtube_video_id := none,
              account := if withAcc then
                some (accounts.getD (s.account_index % n) "") else none },
          .save] ++ pre, ?_⟩
        rw [hev]
        have hacc : s.account_index + 1 + rest1.length =
            s.account_index + (rest1.length + 1) := by omega
        simp [List.append_assoc, List.length_cons, hacc]
    | success vid =>
      have hsucc1 : succCount (c1 :: rest1) = succCount rest1 + 1 :=
        succCount_cons_success c1 rest1 vid hAtt
      have hge : ¬ s.uploaded_count + 1 ≥ t := by
        rw [hsucc1] at hcnt
        omega
      rw [List.cons_append,
        processGo_cons_success accounts n t c1 (rest1 ++ c :: q2) s vid hlt hAtt,
        if_neg hge]
      obtain ⟨s2, hrun, hvi, hup, pre, hev⟩ :=
        ih q2
          { s with uploaded_count := s.uploaded_count + 1,
                   video_index := s.video_index + 1,
                   account_index := s.account_index + 1,
                   usedAccounts := s.usedAccounts ++ [accounts.getD (s.account_index % n) ""],
                   events := s.events ++
                     [.write c1.insta_url
                        { status := "success", reason := none,
                          youtube_video_id := some vid,
                          account := some (accounts.getD (s.account_index % n) "") },
                      .save] }
          (fun c' hc' => hnq c' (List.mem_cons_of_mem c1 hc'))
          (by show s.uploaded_count + 1 + succCount rest1 < t
              rw [hsucc1] at hcnt
              omega)
      refine ⟨s2, hrun, ?_, ?_, ?_⟩
      · rw [hvi]
        show s.video_index + 1 + rest1.length + 1 = s.video_index + (rest1.length + 1) + 1
        omega
      · rw [hup, hsucc1]
        show s.uploaded_count + 1 + succCount rest1 =
          s.uploaded_count + (succCount rest1 + 1)
        omega
      · refine ⟨[.write c1.insta_url
            { status := "success", reason := none, youtube_video_id := some vid,
              account := some (accounts.getD (s.account_index % n) "") },
          .save] ++ pre, ?_⟩
        rw [hev]
        have hacc : s.account_index + 1 + rest1.length =
            s.account_index + (rest1.length + 1) := by omega
        simp [List.append_assoc, List.length_cons, hacc]
    | quota =>
      exact absurd hAtt (hnq c1 (List.mem_cons_self c1 rest1))

/-! ### Claim C1: stopping policy and the 2-of-5 scenario -/

/-- C1: `process_uploads` attempts queue entries strictly in order and, on a
normal (non-quota) return, stops exactly when the success count reaches
`target_successes` or the queue is exhausted, returning the
`(uploaded_count, skipped_count)` counters.  Concretely, for target 2, a
pool of one account, and a queue of five candidates whose attempts 1 and 3
fail and 2 and 4 succeed, the loop stops after attempt 4 with 2 uploads and
2 skips, the ledger trace covering exactly candidates 1-4 in order, so
candidate 5 is never attempted. -/
theorem process_uploads_stop_policy :
    (∀ (accounts : List String) (n t : Nat) (q : List Candidate) (s2 : LoopState),
       process_uploads accounts n q t = .ok s2 →
       s2.uploaded_count ≤ t ∧
       (s2.uploaded_count = t ∨ s2.video_index = q.length)) ∧
    (∃ s2, process_uploads ["acc1"] 1 scenC1 2 = .ok s2 ∧
       s2.uploaded_count = 2 ∧ s2.skipped_count = 2 ∧ s2.video_index = 4 ∧
       s2.events = writeSaveTrace
         [("u1", { status := "failed", reason := some "boom",
                   youtube_video_id := none, account := some "acc1" }),
          ("u2", { status := "success", reason := none,
                   youtube_video_id := some "v2", account := some "acc1" }),
          ("u3", { status := "failed", reason := some "boom",
                   youtube_video_id := none, account := some "acc1" }),
          ("u4", { status := "success", reason := none,
                   youtube_video_id := some "v4", account := some "acc1" })]) := by
  constructor
  · intro accounts n t q s2 h
    have := processGo_stop accounts n t q
      { uploaded_count := 0, skipped_count := 0, video_index := 0,
        account_index := 0, usedAccounts := [], events := [] } s2 h (by simp)
    simpa using this
  · exact ⟨_, rfl, rfl, rfl, rfl, rfl⟩

/-- Witness for C1: the general stopping property applied to the concrete
scenario run. -/
theorem process_uploads_stop_policy_witness :
    (resState (process_uploads ["acc1"] 1 scenC1 2)).uploaded_count ≤ 2 ∧
    ((resState (process_uploads ["acc1"] 1 scenC1 2)).uploaded_count = 2 ∨
      (resState (process_uploads ["acc1"] 1 scenC1 2)).video_index = scenC1.length) :=
  process_uploads_stop_policy.1 ["acc1"] 1 2 scenC1
    (resState (process_uploads ["acc1"] 1 scenC1 2)) rfl

/-! ### Claim C2: quota short-circuit -/

/-- C2: if the candidate at queue position `q1.length` (0-indexed; the
candidates in `q1` come before it) raises the quota signal, and the loop
actually reaches it (no earlier quota, target not yet met), then the run
records that in-flight candidate as failed with reason "Quota exceeded",
persists the ledger (the write/save pair ends the trace), and re-raises
`QuotaExceededError` immediately: the run ends in `.error`, the queue
cursor stops at `q1.length + 1` so no later candidate is attempted, and
the success count reflects only the earlier attempts' outcomes. -/
theorem process_uploads_quota_short_circuit
    (accounts : List String) (n t : Nat) (q1 q2 : List Candidate) (c : Candidate)
    (hq : attemptOutcome c = .quota)
    (hprev : ∀ c2 ∈ q1, attemptOutcome c2 ≠ .quota)
    (hcnt : succCount q1 < t) :
    ∃ s2, process_uploads accounts n (q1 ++ c :: q2) t = .error s2 ∧
      s2.video_index = q1.length + 1 ∧
      s2.uploaded_count = succCount q1 ∧
      ∃ pre, s2.events = pre ++
        [.write c.insta_url
           { status := "failed", reason := some "Quota exceeded",
             youtube_video_id := none,
             account := some (accounts.getD (q1.length % n) "") },
         .save] := by
  obtain ⟨s2, h1, h2, h3, pre, h4⟩ :=
    processGo_quota_fwd accounts n t c hq q1 q2
      { uploaded_count := 0, skipped_count := 0, video_index := 0,
        account_index := 0, usedAccounts := [], events := [] }
      hprev (by simpa using hcnt)
  exact ⟨s2, h1, by simpa using h2, by simpa using h3, pre, by simpa using h4⟩

/-- Witness for C2: one non-quota candidate followed by a quota candidate,
target 2. -/
theorem process_uploads_quota_short_circuit_witness :
    ∃ s2, process_uploads ["a"] 1
        ([mkCand "u1" (.ok "v1")] ++ mkCand "u2" UploadSig.quota :: []) 2 = .error s2 ∧
      s2.video_index = [mkCand "u1" (.ok "v1")].length + 1 ∧
      s2.uploaded_count = succCount [mkCand "u1" (.ok "v1")] ∧
      ∃ pre, s2.events = pre ++
        [.write (mkCand "u2" UploadSig.quota).insta_url
           { status := "failed", reason := some "Quota exceeded",
             youtube_video_id := none,
             account := some (["a"].getD ([mkCand "u1" (.ok "v1")].length % 1) "") },
         .save] :=
  process_uploads_quota_short_circuit ["a"] 1 2
    [mkCand "u1" (.ok "v1")] [] (mkCand "u2" UploadSig.quota) rfl
    (by intro c2 hc2
        simp only [List.mem_singleton] at hc2
        subst hc2
        decide)
    (by decide)

/-! ### Claim C3: round-robin account rotation -/

/-- C3: the account cursor advances by exactly one on every attempt
regardless of outcome, so it always equals the attempt count, and the k-th
attempt (1-indexed) is served by the account at index (k-1) mod
`num_accounts` in pool order.  Concretely, with 3 accounts and 9 attempts
(all successful, target 9) each account serves exactly 3 attempts, in the
cyclic order of the pool. -/
theorem process_uploads_round_robin :
    (∀ (accounts : List String) (n t : Nat) (q : List Candidate)
       (r : Except LoopState LoopState),
       process_uploads accounts n q t = r →
       (resState r).account_index = (resState r).video_index ∧
       (resState r).usedAccounts =
         (List.range (resState r).video_index).map
           (fun j => accounts.getD (j % n) "")) ∧
    ((resState (process_uploads ["a", "b", "c"] 3 scenC3 9)).usedAccounts =
       ["a", "b", "c", "a", "b", "c", "a", "b", "c"] ∧
     (resState (process_uploads ["a", "b", "c"] 3 scenC3 9)).usedAccounts.count "a" = 3 ∧
     (resState (process_uploads ["a", "b", "c"] 3 scenC3 9)).usedAccounts.count "b" = 3 ∧
     (resState (process_uploads ["a", "b", "c"] 3 scenC3 9)).usedAccounts.count "c" = 3) := by
  constructor
  · intro accounts n t q r h
    obtain ⟨k, _, h1, h2, h3⟩ := processGo_counters accounts n t q
      { uploaded_count := 0, skipped_count := 0, video_index := 0,
        account_index := 0, usedAccounts := [], events := [] } r h
    simp only at h1 h2 h3
    rw [Nat.zero_add] at h1 h2
    constructor
    · rw [h1, h2]
    · rw [h1, h3]
      simp
  · exact ⟨rfl, rfl, rfl, rfl⟩

/-- Witness for C3: the rotation property applied to the 3-account,
9-attempt scenario run. -/
theorem process_uploads_round_robin_witness :
    (resState (process_uploads ["a", "b", "c"] 3 scenC3 9)).account_index =
      (resState (process_uploads ["a", "b", "c"] 3 scenC3 9)).video_index ∧
    (resState (process_uploads ["a", "b", "c"] 3 scenC3 9)).usedAccounts =
      (List.range (resState (process_uploads ["a", "b", "c"] 3 scenC3 9)).video_index).map
        (fun j => ["a", "b", "c"].getD (j % 3) "") :=
  process_uploads_round_robin.1 ["a", "b", "c"] 3 9 scenC3
    (process_uploads ["a", "b", "c"] 3 scenC3 9) rfl

/-! ### Claim C4: one ledger record per attempt, saved before proceeding -/

/-- C4: on every terminating path of a loop iteration, the attempted
candidate gets exactly one ledger record - a success record carrying a
video id or a failed record carrying a reason - and the ledger is saved
right after the write, before the next iteration: the event trace of any
run (normal return or quota raise) is exactly a write/save pair per
attempted candidate, the attempted candidates being a prefix of the queue
in order; the attempt counter equals the number of attempted candidates,
and when the queue identifiers are distinct no identifier is written
twice. -/
theorem process_uploads_one_record_per_attempt :
    ∀ (accounts : List String) (n t : Nat) (q : List Candidate)
      (r : Except LoopState LoopState),
      process_uploads accounts n q t = r →
      ∃ k recs, k ≤ q.length ∧ recs.length = k ∧
        (resState r).video_index = k ∧
        (resState r).events =
          writeSaveTrace (((q.take k).map Candidate.insta_url).zip recs) ∧
        (∀ rec1 ∈ recs, recOk rec1) ∧
        ((q.map Candidate.insta_url).Nodup →
          ((q.take k).map Candidate.insta_url).Nodup) := by
  intro accounts n t q r h
  obtain ⟨k, recs, hk, hlen, hvi, hev, hok⟩ := processGo_trace accounts n t q
    { uploaded_count := 0, skipped_count := 0, video_index := 0,
      account_index := 0, usedAccounts := [], events := [] } r h
  refine ⟨k, recs, hk, hlen, by simpa using hvi, by simpa using hev, hok, ?_⟩
  intro hnd
  have hsub : ((q.map Candidate.insta_url).take k).Sublist (q.map Candidate.insta_url) :=
    List.take_sublist k _
  have hnd2 := hnd.sublist hsub
  simpa [List.map_take] using hnd2

/-- Witness for C4: the per-attempt ledger discipline on the concrete
scenario run. -/
theorem process_uploads_one_record_per_attempt_witness :
    ∃ k recs, k ≤ scenC1.length ∧ recs.length = k ∧
      (resState (process_uploads ["acc1"] 1 scenC1 2)).video_index = k ∧
      (resState (process_uploads ["acc1"] 1 scenC1 2)).events =
        writeSaveTrace (((scenC1.take k).map Candidate.insta_url).zip recs) ∧
      (∀ rec1 ∈ recs, recOk rec1) ∧
      ((scenC1.map Candidate.insta_url).Nodup →
        ((scenC1.take k).map Candidate.insta_url).Nodup) :=
  process_uploads_one_record_per_attempt ["acc1"] 1 2 scenC1
    (process_uploads ["acc1"] 1 scenC1 2) rfl

/-! ### Claim C8: duration gate failures skip and continue -/

/-- C8: for a candidate that parses to a local path whose file exists and
is non-empty, a duration probe failure (the -1 sentinel of
`get_video_duration`) is recorded as a failed outcome with reason
"Duration unavailable", and a probed duration strictly greater than 60 is
recorded as a failed outcome with the "Too long for Shorts" reason; in
both cases the loop step reduces to processing the rest of the queue from
the bumped state (skip count up, record written and saved), so the run
continues to the next candidate rather than aborting. -/
theorem duration_gate_failures_continue :
    ∀ (accounts : List String) (n t : Nat) (c : Candidate)
      (rest : List Candidate) (s : LoopState) (u cap : String),
      parsePost c.post = .ok (u, cap) →
      strStartsWith "http://" u = false →
      strStartsWith "https://" u = false →
      c.env.fileExists = true →
      c.env.fileSize ≠ 0 →
      s.uploaded_count < t →
      (get_video_duration c.env.probeExists c.env.probe = -1 →
        attemptOutcome c = .skip "Duration unavailable" false ∧
        processGo accounts n t (c :: rest) s =
          processGo accounts n t rest
            { s with skipped_count := s.skipped_count + 1,
                     video_index := s.video_index + 1,
                     account_index := s.account_index + 1,
                     usedAccounts := s.usedAccounts ++
                       [accounts.getD (s.account_index % n) ""],
                     events := s.events ++
                       [.write c.insta_url
                          { status := "failed", reason := some "Duration unavailable",
                            youtube_video_id := none, account := none },
                        .save] }) ∧
      (∀ d : Int, get_video_duration c.env.probeExists c.env.probe = d →
        d > 60 →
        attemptOutcome c = .skip ("Too long for Shorts (" ++ toString d ++ "s)") false ∧
        processGo accounts n t (c :: rest) s =
          processGo accounts n t rest
            { s with skipped_count := s.skipped_count + 1,
                     video_index := s.video_index + 1,
                     account_index := s.account_index + 1,
                     usedAccounts := s.usedAccounts ++
                       [accounts.getD (s.account_index % n) ""],
                     events := s.events ++
                       [.write c.insta_url
                          { status := "failed",
                            reason := some ("Too long for Shorts (" ++ toString d ++ "s)"),
                            youtube_video_id := none, account := none },
                        .save] }) := by
  intro accounts n t c rest s u cap hparse hh1 hh2 hfe hfs hlt
  constructor
  · intro hdur
    have hAtt : attemptOutcome c = .skip "Duration unavailable" false := by
      simp [attemptOutcome, hparse, hh1, hh2, hfe, hfs, hdur]
    exact ⟨hAtt, processGo_cons_skip accounts n t c rest s _ _ hlt hAtt⟩
  · intro d hd hgt
    have hne : ¬ (d = -1) := by omega
    have hAtt :
        attemptOutcome c = .skip ("Too long for Shorts (" ++ toString d ++ "s)") false := by
      simp [attemptOutcome, hparse, hh1, hh2, hfe, hfs, hd, hne, hgt]
    exact ⟨hAtt, processGo_cons_skip accounts n t c rest s _ _ hlt hAtt⟩

/-- Witness for C8: a local candidate whose probe fails, and one whose
probed duration is 61 seconds. -/
theorem duration_gate_failures_continue_witness :
    (attemptOutcome
        { mkCand "d1" (.ok "x") with
          env := { (mkCand "d1" (.ok "x")).env with probe := none } } =
      .skip "Duration unavailable" false) ∧
    (attemptOutcome
        { mkCand "d2" (.ok "x") with
          env := { (mkCand "d2" (.ok "x")).env with probe := some 61 } } =
      .skip ("Too long for Shorts (" ++ toString (61 : Int) ++ "s)") false) := by
  constructor
  · exact ((duration_gate_failures_continue ["a"] 1 1
      { mkCand "d1" (.ok "x") with
        env := { (mkCand "d1" (.ok "x")).env with probe := none } }
      [] { uploaded_count := 0, skipped_count := 0, video_index := 0,
           account_index := 0, usedAccounts := [], events := [] }
      "videos/v.mp4" "" rfl rfl rfl rfl (by decide) (by decide)).1 rfl).1
  · exact (((duration_gate_failures_continue ["a"] 1 1
      { mkCand "d2" (.ok "x") with
        env := { (mkCand "d2" (.ok "x")).env with probe := some 61 } }
      [] { uploaded_count := 0, skipped_count := 0, video_index := 0,
           account_index := 0, usedAccounts := [], events := [] }
      "videos/v.mp4" "" rfl rfl rfl rfl (by decide) (by decide)).2 61 rfl (by decide))).1

/-! ### Loader lemmas -/

theorem histMem_iff (hist : List (String × Record)) (k : String) :
    histMem hist k = true ↔ k ∈ hist.map Prod.fst := by
  simp [histMem, List.any_eq_true, List.mem_map]

theorem upsert_keys (l : List (String × PostData)) (k : String) (v : PostData) :
    (upsert l k v).map Prod.fst =
      if l.any (fun p => p.1 = k) then l.map Prod.fst
      else l.map Prod.fst ++ [k] := by
  unfold upsert
  split
  · rw [List.map_map]
    apply List.map_congr_left
    intro p _
    by_cases hp : p.1 = k
    · simp [Function.comp, hp]
    · simp [Function.comp, hp]
  · simp

theorem foldl_upsert_keys_nodup :
    ∀ (raw : List (String × PostData)) (acc : List (String × PostData)),
      (acc.map Prod.fst).Nodup →
      ((raw.foldl (fun a p => upsert a p.1 p.2) acc).map Prod.fst).Nodup := by
  intro raw
  induction raw with
  | nil =>
    intro acc h
    simpa using h
  | cons p rest ih =>
    intro acc h
    rw [List.foldl_cons]
    apply ih
    rw [upsert_keys]
    split
    · exact h
    · rename_i hany
      have hmem : p.1 ∉ acc.map Prod.fst := by
        intro hm
        apply hany
        rw [List.any_eq_true]
        obtain ⟨a, ha, he⟩ := List.mem_map.mp hm
        exact ⟨a, ha, by simp [he]⟩
      rw [List.nodup_append]
      refine ⟨h, List.nodup_singleton _, ?_⟩
      intro a ha hb
      rw [List.mem_singleton] at hb
      subst hb
      exact hmem ha

theorem jsonLoadObject_keys_nodup (raw : List (String × PostData)) :
    ((jsonLoadObject raw).map Prod.fst).Nodup :=
  foldl_upsert_keys_nodup raw [] (by simp)

theorem dedupeLoop_id :
    ∀ (items : List (String × PostData)) (seen : List String)
      (uniq : List (String × PostData)) (dups : Nat),
      (items.map Prod.fst).Nodup →
      (∀ k ∈ items.map Prod.fst, k ∉ seen) →
      dedupeLoop items seen uniq dups = (uniq ++ items, dups) := by
  intro items
  induction items with
  | nil =>
    intro seen uniq dups _ _
    simp [dedupeLoop]
  | cons p rest ih =>
    intro seen uniq dups hnd hdisj
    have hp : p.1 ∉ seen := hdisj p.1 (by simp)
    have hnd2 : (p.1 :: rest.map Prod.fst).Nodup := by
      simpa only [List.map_cons] using hnd
    obtain ⟨hhead, htail⟩ := List.nodup_cons.mp hnd2
    rw [dedupeLoop, if_neg hp,
      ih (p.1 :: seen) (uniq ++ [p]) dups htail ?dj]
    · simp
    case dj =>
      intro k hk
      simp only [List.mem_cons]
      push_neg
      constructor
      · intro hkp
        exact hhead (hkp ▸ hk)
      · exact hdisj k (by simp [hk])

theorem dedupe_id (items : List (String × PostData))
    (h : (items.map Prod.fst).Nodup) :
    dedupe items = (items, 0) := by
  have := dedupeLoop_id items [] [] 0 h (by simp)
  simpa [dedupe] using this

theorem dedupe_jsonLoad_id (raw : List (String × PostData)) :
    dedupe (jsonLoadObject raw) = (jsonLoadObject raw, 0) :=
  dedupe_id _ (jsonLoadObject_keys_nodup raw)

theorem filter_not_mem_length (q : List (String × PostData))
    (hist : List (String × Record))
    (hq : (q.map Prod.fst).Nodup) (hh : (hist.map Prod.fst).Nodup)
    (hsub : ∀ k ∈ hist.map Prod.fst, k ∈ q.map Prod.fst) :
    (q.filter (fun p => !histMem hist p.1)).length =
      q.length - hist.length := by
  have hsum : q.length =
      List.countP (fun p => histMem hist p.1) q +
        List.countP (fun p => !histMem hist p.1) q := by
    rw [List.length_eq_countP_add_countP (fun p => histMem hist p.1) q]
    congr 1
    apply List.countP_congr
    intro x _
    simp
  have hneg : (q.filter (fun p => !histMem hist p.1)).length =
      List.countP (fun p => !histMem hist p.1) q :=
    (List.countP_eq_length_filter _ _).symm
  have hpos : List.countP (fun p => histMem hist p.1) q = hist.length := by
    have h1 : List.countP (fun p => histMem hist p.1) q =
        List.countP (fun k => histMem hist k) (q.map Prod.fst) := by
      rw [List.countP_map]
      rfl
    have h2 : List.countP (fun k => histMem hist k) (q.map Prod.fst) =
        ((q.map Prod.fst).filter (fun k => histMem hist k)).length :=
      List.countP_eq_length_filter _ _
    have hperm : ((q.map Prod.fst).filter (fun k => histMem hist k)).Perm
        (hist.map Prod.fst) := by
      rw [List.perm_ext_iff_of_nodup (hq.filter _) hh]
      intro a
      constructor
      · intro ha
        obtain ⟨_, hmem⟩ := List.mem_filter.mp ha
        exact (histMem_iff hist a).mp hmem
      · intro ha
        exact List.mem_filter.mpr ⟨hsub a ha, (histMem_iff hist a).mpr ha⟩
    have h3 := hperm.length_eq
    rw [h1, h2, h3, List.length_map]
  omega

/-! ### Claim C5: history filtering -/

/-- C5: `load_and_filter_data` excludes from the returned queue every
identifier present in the ledger regardless of its record's status, keeps
every catalog entry with no ledger record, returns the queue as a sublist
of the deduplicated catalog (original order), reports the queue length,
raises the no-new-work error exactly when the filtered queue is empty,
and, when the ledger's identifiers are distinct and all occur in the
catalog, returns exactly `len(catalog) - len(ledger)` candidates. -/
theorem load_and_filter_data_spec :
    (∀ (raw : List (String × PostData)) (hist : List (String × Record))
       (res : List (String × PostData)) (cnt : Nat),
       load_and_filter_data raw hist = .ok (res, cnt) →
       cnt = res.length ∧ res ≠ [] ∧
       res.Sublist (dedupe (jsonLoadObject raw)).1 ∧
       (∀ (id : String) (r0 : Record), (id, r0) ∈ hist → ∀ p ∈ res, p.1 ≠ id) ∧
       (∀ p ∈ (dedupe (jsonLoadObject raw)).1, histMem hist p.1 = false → p ∈ res)) ∧
    (∀ (raw : List (String × PostData)) (hist : List (String × Record)),
       ((dedupe (jsonLoadObject raw)).1.filter (fun p => !histMem hist p.1) = [] ↔
         ∃ e, load_and_filter_data raw hist = .error e)) ∧
    (∀ (raw : List (String × PostData)) (hist : List (String × Record)),
       (hist.map Prod.fst).Nodup →
       (∀ k ∈ hist.map Prod.fst, k ∈ (dedupe (jsonLoadObject raw)).1.map Prod.fst) →
       ∀ (res : List (String × PostData)) (cnt : Nat),
         load_and_filter_data raw hist = .ok (res, cnt) →
         res.length = (dedupe (jsonLoadObject raw)).1.length - hist.length) := by
  refine ⟨?_, ?_, ?_⟩
  · intro raw hist res cnt h
    simp only [load_and_filter_data] at h
    split at h
    · cases h
    · rename_i hne
      cases h
      refine ⟨rfl, ?_, List.filter_sublist _, ?_, ?_⟩
      · intro hcon
        rw [hcon] at hne
        exact hne rfl
      · intro id r0 hid p hp he
        have hmem := (List.mem_filter.mp hp).2
        simp only [Bool.not_eq_true'] at hmem
        have hmm : histMem hist p.1 = true := by
          rw [histMem_iff, he]
          exact List.mem_map.mpr ⟨(id, r0), hid, rfl⟩
        rw [hmm] at hmem
        cases hmem
      · intro p hp hnm
        exact List.mem_filter.mpr ⟨hp, by simp [hnm]⟩
  · intro raw hist
    constructor
    · intro he
      refine ⟨"No new videos to upload! All done.", ?_⟩
      simp only [load_and_filter_data, he]
      rfl
    · rintro ⟨e, hrun⟩
      simp only [load_and_filter_data] at hrun
      split at hrun
      · rename_i hemp
        exact List.isEmpty_iff.mp hemp
      · cases hrun
  · intro raw hist hh hsub res cnt h
    simp only [load_and_filter_data] at h
    split at h
    · cases h
    · cases h
      refine filter_not_mem_length _ hist ?_ hh hsub
      rw [dedupe_jsonLoad_id raw]
      exact jsonLoadObject_keys_nodup raw

/-- Witness for C5: a two-entry catalog with a one-entry ledger covering
the first identifier. -/
theorem load_and_filter_data_spec_witness :
    ∀ (res : List (String × PostData)) (cnt : Nat),
      load_and_filter_data
        [("u1", { media_details := [], caption := "a" }),
         ("u2", { media_details := [], caption := "b" })]
        [("u1", { status := "success", reason := none,
                  youtube_video_id := some "v", account := none })] = .ok (res, cnt) →
      res.length =
        (dedupe (jsonLoadObject
          [("u1", { media_details := [], caption := "a" }),
           ("u2", { media_details := [], caption := "b" })])).1.length -
        ([("u1", { status := "success", reason := none,
                   youtube_video_id := some "v", account := none })] :
          List (String × Record)).length :=
  load_and_filter_data_spec.2.2
    [("u1", { media_details := [], caption := "a" }),
     ("u2", { media_details := [], caption := "b" })]
    [("u1", { status := "success", reason := none,
              youtube_video_id := some "v", account := none })]
    (by decide) (by decide)

/-! ### Claim C6: catalog deduplication -/

/-- C6 counterexample: for an input whose identifier "A" appears twice
with different payloads, the loaded queue keeps the LAST payload (Python
dict semantics collapse the duplicate before the dedup pass runs) and the
reported duplicate count is 0 - not the first payload with count 1 as
claimed. -/
theorem dedupe_keeps_last_payload_counterexample :
    dedupe (jsonLoadObject
        [("A", { media_details := [], caption := "one" }),
         ("A", { media_details := [], caption := "two" })]) =
      ([("A", { media_details := [], caption := "two" })], 0) ∧
    ({ media_details := [], caption := "one" } : PostData) ≠
      { media_details := [], caption := "two" } ∧
    dedupe (jsonLoadObject
        [("A", { media_details := [], caption := "one" }),
         ("A", { media_details := [], caption := "two" })]) ≠
      ([("A", { media_details := [], caption := "one" })], 1) := by
  refine ⟨by decide, by decide, by decide⟩

/-- C6 (amended): duplicate identifiers are collapsed by the JSON object
load before the dedup pass runs: a repeated identifier is kept once, at
its first position, with its last payload; the dedup pass itself never
sees a duplicate, so it returns the dict unchanged with a reported
duplicate count of 0. -/
theorem dedupe_after_jsonLoad (id : String) (pd1 pd2 : PostData) :
    jsonLoadObject [(id, pd1), (id, pd2)] = [(id, pd2)] ∧
    dedupe (jsonLoadObject [(id, pd1), (id, pd2)]) = ([(id, pd2)], 0) ∧
    ∀ raw : List (String × PostData),
      dedupe (jsonLoadObject raw) = (jsonLoadObject raw, 0) := by
  have hload : jsonLoadObject [(id, pd1), (id, pd2)] = [(id, pd2)] := by
    simp [jsonLoadObject, upsert]
  exact ⟨hload, by rw [hload]; exact dedupe_id _ (by simp),
    fun raw => dedupe_jsonLoad_id raw⟩

/-! ### Hashtag scan lemmas -/

theorem findHashtagsGo_fuel_eq :
    ∀ (fuel1 fuel2 : Nat) (l : List Char), l.length ≤ fuel1 → l.length ≤ fuel2 →
      findHashtagsGo fuel1 l = findHashtagsGo fuel2 l := by
  intro fuel1
  induction fuel1 with
  | zero =>
    intro fuel2 l h1 _
    have hl : l = [] := List.length_eq_zero.mp (Nat.le_zero.mp h1)
    subst hl
    cases fuel2 <;> rfl
  | succ fuel1 ih =>
    intro fuel2 l h1 h2
    match l with
    | [] => cases fuel2 <;> rfl
    | ch :: rest =>
      match fuel2 with
      | 0 => exact absurd h2 (by simp)
      | fuel2 + 1 =>
        have hr1 : rest.length ≤ fuel1 := by simp at h1; omega
        have hr2 : rest.length ≤ fuel2 := by simp at h2; omega
        have hd : (rest.drop (rest.takeWhile isWordChar).length).length ≤ rest.length := by
          rw [List.length_drop]
          omega
        simp only [findHashtagsGo]
        by_cases hch : ch = '#'
        · rw [if_pos hch, if_pos hch]
          by_cases htok : (rest.takeWhile isWordChar).isEmpty
          · rw [if_pos htok, if_pos htok]
            exact ih fuel2 rest hr1 hr2
          · rw [if_neg htok, if_neg htok]
            congr 1
            exact ih fuel2 _ (by omega) (by omega)
        · rw [if_neg hch, if_neg hch]
          exact ih fuel2 rest hr1 hr2

theorem findHashtags_nil : findHashtags [] = [] := rfl

theorem findHashtags_cons_nonhash (ch : Char) (rest : List Char) (h : ¬ ch = '#') :
    findHashtags (ch :: rest) = findHashtags rest := by
  simp only [findHashtags, List.length_cons, findHashtagsGo, if_neg h]

theorem findHashtags_cons_hash (rest : List Char)
    (htok : ¬ (rest.takeWhile isWordChar).isEmpty) :
    findHashtags ('#' :: rest) =
      ('#' :: rest.takeWhile isWordChar) ::
        findHashtags (rest.drop (rest.takeWhile isWordChar).length) := by
  simp only [findHashtags, List.length_cons, findHashtagsGo]
  rw [if_pos trivial, if_neg htok]
  congr 1
  apply findHashtagsGo_fuel_eq
  · rw [List.length_drop]
    omega
  · exact le_refl _

theorem takeWhile_of_all (p : Char → Bool) :
    ∀ w : List Char, (∀ ch ∈ w, p ch = true) → w.takeWhile p = w := by
  intro w
  induction w with
  | nil => intro _; rfl
  | cons a l ih =>
    intro h
    rw [List.takeWhile_cons, if_pos (h a (by simp)),
      ih (fun ch hch => h ch (by simp [hch]))]

theorem takeWhile_append_stop (p : Char → Bool) :
    ∀ (w : List Char) (c : Char) (l : List Char),
      (∀ ch ∈ w, p ch = true) → p c = false →
      (w ++ c :: l).takeWhile p = w := by
  intro w
  induction w with
  | nil =>
    intro c l _ hc
    simp [List.takeWhile_cons, hc]
  | cons a w ih =>
    intro c l h hc
    rw [List.cons_append, List.takeWhile_cons, if_pos (h a (by simp)),
      ih c l (fun ch hch => h ch (by simp [hch])) hc]

/-! ### Claim C9: tag extraction does not deduplicate -/

/-- C9 counterexample: the caption "#a #a" produces the tag list
["#a", "#a"], which contains a duplicate entry, refuting the claim that
the tag list derived from a caption is deduplicated. -/
theorem extract_tags_counterexample :
    extract_tags_from_caption ['#', 'a', ' ', '#', 'a'] =
      [['#', 'a'], ['#', 'a']] ∧
    ¬ (extract_tags_from_caption ['#', 'a', ' ', '#', 'a']).Nodup :=
  ⟨by decide, by decide⟩

/-- C9 (amended): the tag list derived from a caption is the list of
hashtags found by the `#\w+` scan, lowercased, in occurrence order and
with multiplicity preserved: a caption carrying the same hashtag twice
yields that tag twice - the source performs no deduplication. -/
theorem extract_tags_keeps_duplicates (w : List Char) (hne : w ≠ [])
    (hw : ∀ ch ∈ w, isWordChar ch = true) :
    extract_tags_from_caption ('#' :: (w ++ ' ' :: '#' :: w)) =
      [('#' :: w).map Char.toLower, ('#' :: w).map Char.toLower] := by
  have htok1 : (w ++ ' ' :: '#' :: w).takeWhile isWordChar = w :=
    takeWhile_append_stop isWordChar w ' ' ('#' :: w) hw (by decide)
  have hwne : ¬ w.isEmpty := by
    cases w
    · exact absurd rfl hne
    · simp
  have hne1 : ¬ ((w ++ ' ' :: '#' :: w).takeWhile isWordChar).isEmpty := by
    rw [htok1]
    exact hwne
  have hne2 : ¬ (w.takeWhile isWordChar).isEmpty := by
    rw [takeWhile_of_all isWordChar w hw]
    exact hwne
  rw [extract_tags_from_caption, findHashtags_cons_hash _ hne1, htok1,
    List.drop_left, findHashtags_cons_nonhash ' ' _ (by decide),
    findHashtags_cons_hash _ hne2, takeWhile_of_all isWordChar w hw,
    List.drop_length, findHashtags_nil]
  simp

/-- Witness for the amended C9: the hashtag "#a" repeated. -/
theorem extract_tags_keeps_duplicates_witness :
    extract_tags_from_caption ('#' :: (['a'] ++ ' ' :: '#' :: ['a'])) =
      [('#' :: ['a']).map Char.toLower, ('#' :: ['a']).map Char.toLower] :=
  extract_tags_keeps_duplicates ['a'] (by decide) (by decide)

/-! ### Title lemmas -/

theorem dropWhile_length_le (p : Char → Bool) :
    ∀ l : List Char, (l.dropWhile p).length ≤ l.length := by
  intro l
  induction l with
  | nil => simp [List.dropWhile]
  | cons a l ih =>
    simp only [List.dropWhile]
    split
    · simp only [List.length_cons]
      omega
    · simp

theorem pySplit_tokens_no_space :
    ∀ (N : Nat) (l : List Char), l.length ≤ N →
      ∀ t ∈ pySplit l, ∀ ch ∈ t, pyIsSpace ch = false := by
  intro N
  induction N with
  | zero =>
    intro l hl
    have hn : l = [] := List.length_eq_zero.mp (Nat.le_zero.mp hl)
    subst hn
    intro t ht
    simp [pySplit] at ht
  | succ N ih =>
    intro l hl t ht ch hch
    match l with
    | [] => simp [pySplit] at ht
    | c :: rest =>
      have hr : rest.length ≤ N := by simp at hl; omega
      simp only [pySplit] at ht
      by_cases hc : pyIsSpace c
      · rw [if_pos hc] at ht
        exact ih rest hr t ht ch hch
      · rw [if_neg hc] at ht
        rcases List.mem_cons.mp ht with h1 | h1
        · subst h1
          rcases List.mem_cons.mp hch with h2 | h2
          · subst h2
            simpa using hc
          · have h3 := List.mem_takeWhile_imp h2
            simpa using h3
        · have hdl : (rest.dropWhile (fun d => !pyIsSpace d)).length ≤ N := by
            have := dropWhile_length_le (fun d => !pyIsSpace d) rest
            omega
          exact ih _ hdl t h1 ch hch

theorem joinSpace_mem :
    ∀ (ts : List (List Char)) (ch : Char), ch ∈ joinSpace ts →
      ch = ' ' ∨ ∃ t ∈ ts, ch ∈ t := by
  intro ts
  induction ts with
  | nil =>
    intro ch h
    simp [joinSpace] at h
  | cons t ts ih =>
    intro ch h
    cases ts with
    | nil =>
      right
      refine ⟨t, by simp, ?_⟩
      simpa [joinSpace] using h
    | cons t2 ts2 =>
      have hj : joinSpace (t :: t2 :: ts2) = t ++ ' ' :: joinSpace (t2 :: ts2) := rfl
      rw [hj] at h
      rcases List.mem_append.mp h with h1 | h1
      · right
        exact ⟨t, by simp, h1⟩
      · rcases List.mem_cons.mp h1 with h2 | h2
        · left
          exact h2
        · rcases ih ch h2 with h3 | ⟨t3, ht3, hc3⟩
          · left
            exact h3
          · right
            exact ⟨t3, List.mem_cons_of_mem t ht3, hc3⟩

theorem joinSplit_no_newline (l : List Char) :
    Char.ofNat 10 ∉ (joinSpace (pySplit l)).take 100 := by
  intro h
  have h2 := List.take_subset _ _ h
  rcases joinSpace_mem _ _ h2 with h3 | ⟨t, ht, hc⟩
  · exact absurd h3 (by decide)
  · have h4 := pySplit_tokens_no_space l.length l (le_refl _) t ht _ hc
    exact absurd h4 (by decide)

theorem prefix_take_of_prefix (l1 l2 : List Char) (n : Nat)
    (h : l1 <+: l2) (hn : l1.length ≤ n) : l1 <+: l2.take n := by
  obtain ⟨t, rfl⟩ := h
  rw [List.take_append_eq_append_take, List.take_of_length_le hn]
  exact List.prefix_append _ _

theorem digitChar_ne_newline (d : Nat) : digitChar d ≠ Char.ofNat 10 := by
  unfold digitChar
  split <;> decide

theorem natDigits_ne_newline : ∀ n : Nat, Char.ofNat 10 ∉ natDigits n := by
  intro n
  induction n using Nat.strong_induction_on with
  | _ n ih =>
    unfold natDigits
    split
    · intro h
      rw [List.mem_singleton] at h
      exact digitChar_ne_newline n h.symm
    · rename_i hge
      intro h
      rcases List.mem_append.mp h with h1 | h1
      · exact ih (n / 10) (Nat.div_lt_self (by omega) (by omega)) h1
      · rw [List.mem_singleton] at h1
        exact digitChar_ne_newline (n % 10) h1.symm

theorem enforceShorts_spec (bt : List Char) (hne : bt ≠ [])
    (hnl : Char.ofNat 10 ∉ bt) :
    enforceShorts bt ≠ [] ∧ (enforceShorts bt).length ≤ 100 ∧
    Char.ofNat 10 ∉ enforceShorts bt ∧
    "#shorts".data <+: (enforceShorts bt).map Char.toLower := by
  unfold enforceShorts
  by_cases hpf : "#shorts".data.isPrefixOf (bt.map Char.toLower) = true
  · rw [if_neg (fun hcon => hcon hpf)]
    refine ⟨?_, ?_, ?_, ?_⟩
    · intro hcon
      rcases List.take_eq_nil_iff.mp hcon with h | h
      · exact absurd h (by decide)
      · exact hne h
    · rw [List.length_take]
      omega
    · intro hcon
      exact hnl (List.take_subset _ _ hcon)
    · rw [List.map_take]
      exact prefix_take_of_prefix _ _ 100 (List.isPrefixOf_iff_prefix.mp hpf) (by decide)
  · rw [if_pos hpf]
    refine ⟨?_, ?_, ?_, ?_⟩
    · intro hcon
      rcases List.take_eq_nil_iff.mp hcon with h | h
      · exact absurd h (by decide)
      · simp at h
    · rw [List.length_take]
      omega
    · intro hcon
      have h2 := List.take_subset _ _ hcon
      rcases List.mem_append.mp h2 with h3 | h3
      · exact absurd h3 (by decide)
      · exact hnl h3
    · rw [List.map_take, List.map_append]
      have hlit : "#Shorts ".data.map Char.toLower = "#shorts ".data := by decide
      rw [hlit]
      refine prefix_take_of_prefix _ _ 100 ?_ (by decide)
      exact List.IsPrefix.trans (by decide) (List.prefix_append _ _)

/-! ### Claim C10: title invariants -/

/-- C10: for every caption (including the empty one) and every attempt
index, the title constructed before the upload call is non-empty, at most
100 characters long, contains no newline character, and starts with
"#shorts" compared case-insensitively (through the fallback title or the
prepended "#Shorts " prefix). -/
theorem buildTitle_spec (caption : List Char) (video_index : Nat) :
    buildTitle caption video_index ≠ [] ∧
    (buildTitle caption video_index).length ≤ 100 ∧
    Char.ofNat 10 ∉ buildTitle caption video_index ∧
    "#shorts".data <+: (buildTitle caption video_index).map Char.toLower := by
  simp only [buildTitle]
  split
  · apply enforceShorts_spec
    · intro hcon
      simp at hcon
    · intro hcon
      rcases List.mem_append.mp hcon with h1 | h1
      · exact absurd h1 (by decide)
      · exact natDigits_ne_newline video_index h1
  · rename_i hA
    push_neg at hA
    apply enforceShorts_spec
    · intro hcon
      exact hA.1 (by rw [hcon]; rfl)
    · exact joinSplit_no_newline _

/-! ### Claim C7: upload retry contract -/

/-- C7 counterexample: an HTTP 502 response - a 5xx server error - is not
retried by `initialize_upload`: the very first 502 surfaces immediately,
with no retries and no backoff sleeps, refuting "internally retries every
5xx server error response". -/
theorem upload_502_not_retried_counterexample :
    uploadAttempts resp502 0 3 1 [] = (.raisedHttp 502, []) ∧
    500 ≤ 502 ∧ 502 < 600 ∧
    initialize_upload true [] resp502 = .ok ((.raisedHttp 502, []), ["#Shorts"]) :=
  ⟨by decide, by decide, by decide, rfl⟩

/-- C7 (amended): the upload collaborator raises the distinguished
quota-exceeded signal only from an HTTP 403 response whose reason contains
"quotaExceeded" (and does so immediately when the first attempt returns
one); it internally retries only HTTP 500 and 503 responses, at most 3
attempts total, sleeping exponentially increasing delays (1s then 2s)
before surfacing the last error; other statuses surface at once; and on a
successful response it returns the platform-assigned video id. -/
theorem initialize_upload_retry_contract :
    (∀ (responses : Nat → ApiResponse) (i fuel delay : Nat) (sleeps : List Nat),
       (uploadAttempts responses i fuel delay sleeps).1 = .quotaRaised →
       ∃ j, i ≤ j ∧ j < i + fuel ∧ ∃ reason,
         responses j = .httpError 403 reason ∧
         containsSub "quotaExceeded".data reason.data = true) ∧
    (∀ (responses : Nat → ApiResponse) (reason : String),
       responses 0 = .httpError 403 reason →
       containsSub "quotaExceeded".data reason.data = true →
       uploadAttempts responses 0 3 1 [] = (.quotaRaised, [])) ∧
    (∀ (responses : Nat → ApiResponse) (s0 s1 s2 : Nat) (r0 r1 r2 : String),
       responses 0 = .httpError s0 r0 → (s0 = 500 ∨ s0 = 503) →
       responses 1 = .httpError s1 r1 → (s1 = 500 ∨ s1 = 503) →
       responses 2 = .httpError s2 r2 → (s2 = 500 ∨ s2 = 503) →
       uploadAttempts responses 0 3 1 [] = (.raisedHttp s2, [1, 2])) ∧
    (∀ (responses : Nat → ApiResponse) (vid : String) (tags : List String),
       responses 0 = .ok vid → vid ≠ "" →
       initialize_upload true tags responses =
         .ok ((.ok vid, []),
           if "shorts" ∈ tags.map (fun tg => String.mk (tg.data.map Char.toLower))
           then tags else tags ++ ["#Shorts"])) := by
  refine ⟨?_, ?_, ?_, ?_⟩
  · intro responses i fuel
    induction fuel generalizing i with
    | zero =>
      intro delay sleeps h
      simp [uploadAttempts] at h
    | succ fuel ih =>
      intro delay sleeps h
      cases hresp : responses i with
      | ok vid =>
        simp only [uploadAttempts, hresp] at h
        by_cases hv : vid = ""
        · rw [if_pos hv] at h
          by_cases hi : i < 2
          · rw [if_pos hi] at h
            obtain ⟨j, hj1, hj2, reason, hr⟩ := ih (i + 1) (delay * 2) (sleeps ++ [delay]) h
            exact ⟨j, by omega, by omega, reason, hr⟩
          · rw [if_neg hi] at h
            simp at h
        · rw [if_neg hv] at h
          simp at h
      | httpError status reason =>
        simp only [uploadAttempts, hresp] at h
        by_cases hq : status = 403 ∧ containsSub "quotaExceeded".data reason.data = true
        · exact ⟨i, le_refl i, by omega, reason, by rw [hresp, hq.1], hq.2⟩
        · rw [if_neg hq] at h
          by_cases hs : status = 500 ∨ status = 503
          · rw [if_pos hs] at h
            by_cases hi : i < 2
            · rw [if_pos hi] at h
              obtain ⟨j, hj1, hj2, reason2, hr⟩ := ih (i + 1) (delay * 2) (sleeps ++ [delay]) h
              exact ⟨j, by omega, by omega, reason2, hr⟩
            · rw [if_neg hi] at h
              simp at h
          · rw [if_neg hs] at h
            simp at h
      | otherError msg =>
        simp only [uploadAttempts, hresp] at h
        by_cases hi : i < 2
        · rw [if_pos hi] at h
          obtain ⟨j, hj1, hj2, reason2, hr⟩ := ih (i + 1) (delay * 2) (sleeps ++ [delay]) h
          exact ⟨j, by omega, by omega, reason2, hr⟩
        · rw [if_neg hi] at h
          simp at h
  · intro responses reason h0 hc
    show uploadAttempts responses 0 (2 + 1) 1 [] = (.quotaRaised, [])
    simp only [uploadAttempts, h0]
    rw [if_pos ⟨trivial, hc⟩]
  · intro responses s0 s1 s2 r0 r1 r2 h0 hs0 h1 hs1 h2 hs2
    have hnq0 : ¬ (s0 = 403 ∧ containsSub "quotaExceeded".data r0.data = true) := by
      rintro ⟨h403, _⟩
      omega
    have hnq1 : ¬ (s1 = 403 ∧ containsSub "quotaExceeded".data r1.data = true) := by
      rintro ⟨h403, _⟩
      omega
    have hnq2 : ¬ (s2 = 403 ∧ containsSub "quotaExceeded".data r2.data = true) := by
      rintro ⟨h403, _⟩
      omega
    show uploadAttempts responses 0 (2 + 1) 1 [] = (.raisedHttp s2, [1, 2])
    simp only [uploadAttempts, h0]
    rw [if_neg hnq0, if_pos hs0, if_pos (by omega : (0 : Nat) < 2)]
    show uploadAttempts responses 1 (1 + 1) 2 [1] = (.raisedHttp s2, [1, 2])
    simp only [uploadAttempts, h1]
    rw [if_neg hnq1, if_pos hs1, if_pos (by omega : (1 : Nat) < 2)]
    show uploadAttempts responses 2 (0 + 1) 4 [1, 2] = (.raisedHttp s2, [1, 2])
    simp only [uploadAttempts, h2]
    rw [if_neg hnq2, if_pos hs2, if_neg (by omega : ¬ (2 : Nat) < 2)]
  · intro responses vid tags h0 hv
    have hrun : uploadAttempts responses 0 3 1 [] = (.ok vid, []) := by
      show uploadAttempts responses 0 (2 + 1) 1 [] = (.ok vid, [])
      simp only [uploadAttempts, h0]
      rw [if_neg hv]
    simp [initialize_upload, hrun]

/-- Witness for the amended C7: a constant 403/quotaExceeded response
raises the quota signal on the first attempt with no sleeps. -/
theorem initialize_upload_retry_contract_witness :
    uploadAttempts (fun _ => ApiResponse.httpError 403 "quotaExceeded") 0 3 1 [] =
      (.quotaRaised, []) :=
  initialize_upload_retry_contract.2.1
    (fun _ => ApiResponse.httpError 403 "quotaExceeded") "quotaExceeded" rfl (by decide)

end YTAuto
